import Mathlib

/-!
A shallow embedding of the `vAIdya` link scraper (`parser.py` with
`LinkParser.fetch_page`, `parse_issues`, `parse_pdfs`, `download`,
`download_all`, and `src/download.py`'s `download_file`).

HTML documents are modelled as trees of elements carrying a tag name, the
(multi-valued) `class` attribute, the remaining attributes, and the text
content that BeautifulSoup's `.text` would return.  Network responses are
modelled explicitly (status code plus body), `requests` transport failures
as a missing response; `raise_for_status` becomes an `Except`.  The local
filesystem is a map from paths to byte contents.  Side effects of
`download_all` (invoking `download`, `time.sleep(1)`) are recorded as an
event trace.
-/

namespace Vaidya

/-- An HTML element: tag name, list of classes (BeautifulSoup treats the
`class` attribute as multi-valued), the other attributes, the element's
text content (what `element.text` returns), and child elements. -/
inductive HtmlElement : Type where
  | mk (tag : String) (classes : List String) (attrs : List (String × String))
       (text : String) (children : List HtmlElement)
deriving Repr

/-- A parsed HTML page: the top-level elements, in document order. -/
def Html : Type := List HtmlElement

def HtmlElement.tag : HtmlElement → String
  | .mk t _ _ _ _ => t

def HtmlElement.classes : HtmlElement → List String
  | .mk _ c _ _ _ => c

def HtmlElement.attrs : HtmlElement → List (String × String)
  | .mk _ _ a _ _ => a

def HtmlElement.text : HtmlElement → String
  | .mk _ _ _ x _ => x

def HtmlElement.children : HtmlElement → List HtmlElement
  | .mk _ _ _ _ ch => ch

mutual

/-- All elements of the subtree rooted at `e`, in document (pre-)order. -/
def HtmlElement.preorder : HtmlElement → List HtmlElement
  | .mk t c a x ch => .mk t c a x ch :: preorderList ch

/-- All elements of the forest `es`, in document (pre-)order. -/
def preorderList : List HtmlElement → List HtmlElement
  | [] => []
  | e :: es => e.preorder ++ preorderList es

end

/-- Attribute lookup, `element[name]` / `element.attrs.get(name)`. -/
def getAttr (e : HtmlElement) (name : String) : Option String :=
  (e.attrs.find? (fun p => p.1 == name)).map (fun p => p.2)

/-- `name in element.attrs`. -/
def hasAttr (e : HtmlElement) (name : String) : Bool :=
  (getAttr e name).isSome

/-- BeautifulSoup's `class_=cls` filter: the element matches when `cls`
equals one of its classes, or when `cls` equals the full space-joined
class string (this is how `class_='obj_galley_link pdf'` matches). -/
def matchesClass (cls : String) (e : HtmlElement) : Bool :=
  e.classes.contains cls || String.intercalate " " e.classes == cls

/-- `soup.find_all(tag, class_=cls)`: every element of the document with
this tag name matching the class filter, in document order. -/
def findAllPage (page : Html) (tag cls : String) : List HtmlElement :=
  (preorderList page).filter (fun e => e.tag == tag && matchesClass cls e)

/-- `element.find(attrs={ext: True})`: the first descendant (document
order, the element itself excluded) that carries attribute `ext`. -/
def findAttrDescendant (ext : String) (e : HtmlElement) : Option HtmlElement :=
  (preorderList e.children).find? (fun t => hasAttr t ext)

/-- Python's `pat in s` substring test, on character lists. -/
def listContainsSub (pat : List Char) : List Char → Bool
  | [] => pat.isEmpty
  | x :: xs => pat.isPrefixOf (x :: xs) || listContainsSub pat xs

/-- Python's `pat in s` substring test, on strings. -/
def strContainsSub (s pat : String) : Bool :=
  listContainsSub pat.data s.data

/-- Scanner for Python's `s.replace(pat, rep)` with a nonempty pattern:
scan left to right; at skip count `0`, on a match emit `rep` and skip
the rest of the matched occurrence (`pat.length - 1` further
characters, the head being consumed here); a positive skip count drops
the character. -/
def replaceAux (pat rep : List Char) : List Char → Nat → List Char
  | [], _ => []
  | x :: xs, 0 =>
    if pat ≠ [] ∧ pat.isPrefixOf (x :: xs) then
      rep ++ replaceAux pat rep xs (pat.length - 1)
    else
      x :: replaceAux pat rep xs 0
  | _ :: xs, n + 1 => replaceAux pat rep xs n

/-- Python's `s.replace(pat, rep)` for a nonempty pattern `pat`:
replace every non-overlapping occurrence, scanning left to right. -/
def replaceSub (pat rep s : List Char) : List Char :=
  replaceAux pat rep s 0

/-- Python's `s.replace(pat, rep)` on strings (`pat` nonempty). -/
def pyReplace (s pat rep : String) : String :=
  ⟨replaceSub pat.data rep.data s.data⟩

/-- Python's `s.split(c)` for a one-character separator: the pieces of
`s` between occurrences of `c`; always at least one (possibly empty)
piece. -/
def splitOnChar (c : Char) : List Char → List (List Char)
  | [] => [[]]
  | x :: xs =>
    if x = c then [] :: splitOnChar c xs
    else
      match splitOnChar c xs with
      | s :: rest => (x :: s) :: rest
      | [] => [[x]]

/-- Python's `s.split('/')[-1]`: the last `/`-separated segment. -/
def lastSegment (s : String) : String :=
  ⟨(splitOnChar '/' s.data).getLastD []⟩

/-- `os.path.join(a, b)` for two POSIX components: `b` if it is
absolute, else `a ++ b` when `a` is empty or ends with a slash, else
`a ++ "/" ++ b`. -/
def osPathJoin (a b : String) : String :=
  if b.data.head? = some '/' then b
  else if a.data = [] then b
  else if a.data.getLast? = some '/' then a ++ b
  else a ++ "/" ++ b

/-- An error raised by a network operation: a transport-level failure
(`requests.ConnectionError` etc.) or the `requests.HTTPError` raised by
`response.raise_for_status()` for a 4xx/5xx status. -/
inductive FetchError : Type where
  | transport
  | httpStatus (code : Nat)
deriving DecidableEq, Repr

/-- An HTTP response: status code and body (already parsed for HTML
pages, a list of byte chunks for file downloads). -/
structure Resp (α : Type) : Type where
  status : Nat
  body : α

/-- The network, as seen by one run: each URL either yields a response
or fails at transport level (`none`). -/
def Net (α : Type) : Type := String → Option (Resp α)

/-- A byte-chunk sequence as produced by `r.iter_content(chunk_size=8192)`. -/
def Chunks : Type := List (List Nat)

/-- `response.raise_for_status()`: raises `HTTPError` exactly for
status codes in `[400, 600)`. -/
def raise_for_status (status : Nat) : Except FetchError Unit :=
  if 400 ≤ status ∧ status < 600 then .error (.httpStatus status) else .ok ()

/-- `LinkParser.fetch_page`: GET the URL, raise for an unsuccessful
status, return the page content. -/
def fetch_page (net : Net Html) (url : String) : Except FetchError Html :=
  match net url with
  | none => .error .transport
  | some r =>
    match raise_for_status r.status with
    | .error e => .error e
    | .ok _ => .ok r.body

/-- The body of the `parse_issues` loop: for each matched `div`, find the
first descendant carrying attribute `ext` and, when present, append its
value to the accumulator `self.issue_links`. -/
def issuesLoop (ext : String) : List HtmlElement → List String → List String
  | [], acc => acc
  | element :: rest, acc =>
    match findAttrDescendant ext element with
    | some tag =>
      match getAttr tag ext with
      | some v => issuesLoop ext rest (acc ++ [v])
      | none => issuesLoop ext rest acc
    | none => issuesLoop ext rest acc

/-- The inner body of the `parse_pdfs` loop: for each matched anchor,
append `element[ext]` to `self.pdf_links` when the attribute is present
and the text contains `"PDF FULL TEXT"`. -/
def pdfsLoop (ext : String) : List HtmlElement → List String → List String
  | [], acc => acc
  | element :: rest, acc =>
    match getAttr element ext with
    | some v =>
      if strContainsSub element.text "PDF FULL TEXT" then
        pdfsLoop ext rest (acc ++ [v])
      else pdfsLoop ext rest acc
    | none => pdfsLoop ext rest acc

/-- The pure extraction performed by `parse_issues` on one fetched page. -/
def parseIssuesPage (page : Html) (cls ext : String) : List String :=
  issuesLoop ext (findAllPage page "div" cls) []

/-- The pure extraction performed by `parse_pdfs` on one fetched issue
page, appending to the running accumulator. -/
def parsePdfsPage (page : Html) (cls ext : String) (acc : List String) : List String :=
  pdfsLoop ext (findAllPage page "a" cls) acc

/-- The mutable state of a `LinkParser` instance. -/
structure LinkParser : Type where
  issues_url : String
  issue_links : List String
  pdf_links : List String

/-- `LinkParser.parse_issues`: fetch the archive page, reset
`self.issue_links` and fill it from the matched `div` containers.  On a
fetch failure the exception propagates and the state is untouched (the
reset happens after the fetch). -/
def LinkParser.parse_issues (net : Net Html) (p : LinkParser) (cls ext : String) :
    LinkParser × Except FetchError (List String) :=
  match fetch_page net p.issues_url with
  | .error e => (p, .error e)
  | .ok page =>
    let links := parseIssuesPage page cls ext
    ({ p with issue_links := links }, .ok links)

/-- The `parse_pdfs` loop over `self.issue_links`: fetch each issue page
in order, appending its matches to `self.pdf_links`; a fetch failure
aborts the loop with the exception, keeping what was accumulated. -/
def pdfPagesLoop (net : Net Html) (cls ext : String) :
    List String → List String → List String × Option FetchError
  | [], acc => (acc, none)
  | url :: rest, acc =>
    match fetch_page net url with
    | .error e => (acc, some e)
    | .ok page => pdfPagesLoop net cls ext rest (parsePdfsPage page cls ext acc)

/-- `LinkParser.parse_pdfs`: reset `self.pdf_links` to `[]`, then run the
loop over `self.issue_links`.  The second component is the exception, if
one was raised. -/
def LinkParser.parse_pdfs (net : Net Html) (p : LinkParser) (cls ext : String) :
    LinkParser × Option FetchError :=
  let r := pdfPagesLoop net cls ext p.issue_links []
  ({ p with pdf_links := r.1 }, r.2)

/-- The local filesystem: a map from paths to file contents (bytes). -/
def FS : Type := String → Option (List Nat)

/-- Writing a file: `open(path, 'wb')` followed by writing every chunk. -/
def FS.write (fs : FS) (path : String) (content : List Nat) : FS :=
  fun q => if q = path then some content else fs q

/-- `LinkParser.download` (same code as `download_file` in
`src/download.py`): GET the URL, `raise_for_status()` — so the local
file is opened only after the status check passes — then stream the
body chunks into the file. -/
def download (net : Net Chunks) (url path : String) (fs : FS) : FS × Option FetchError :=
  match net url with
  | none => (fs, some .transport)
  | some r =>
    match raise_for_status r.status with
    | .error e => (fs, some e)
    | .ok _ => (fs.write path r.body.flatten, none)

/-- An observable action of the orchestrator: invoking `self.download`
on a (rewritten) URL and local path, or `time.sleep(1)`. -/
inductive Event : Type where
  | download (url : String) (path : String)
  | sleep
deriving DecidableEq, Repr

def isSleep : Event → Bool
  | .sleep => true
  | _ => false

def isDownload : Event → Bool
  | .download _ _ => true
  | _ => false

/-- The URL rewrite in `download_all`:
`pdf_link.replace('/view/', '/download/')`. -/
def rewriteView (url : String) : String :=
  pyReplace url "/view/" "/download/"

/-- The local path derivation in `download_all`:
`os.path.join(download_folder, pdf_link.split('/')[-1] + '.pdf')`
applied to the rewritten link. -/
def localPathOf (folder rewritten : String) : String :=
  osPathJoin folder (lastSegment rewritten ++ ".pdf")

/-- The `download_all` loop: for each pdf link, rewrite `/view/` to
`/download/` (into the loop variable, never back into the list), derive
the local filename, invoke `self.download`, then `time.sleep(1)`.  A
download failure propagates, aborting the rest (no sleep after it). -/
def downloadAllLoop (net : Net Chunks) (folder : String) :
    List String → FS → List Event → FS × List Event × Option FetchError
  | [], fs, tr => (fs, tr, none)
  | link :: rest, fs, tr =>
    let link2 := rewriteView link
    let fname := localPathOf folder link2
    match download net link2 fname fs with
    | (fs', none) => downloadAllLoop net folder rest fs' (tr ++ [.download link2 fname, .sleep])
    | (fs', some e) => (fs', tr ++ [.download link2 fname], some e)

/-- `LinkParser.download_all`: run the loop over `self.pdf_links`.
(The `os.makedirs` call is not modelled: the filesystem map holds files
only.)  Returns the parser state (threaded through, the loop assigns no
attribute), the filesystem, the event trace and the exception if any. -/
def LinkParser.download_all (net : Net Chunks) (p : LinkParser) (folder : String) (fs : FS) :
    LinkParser × FS × List Event × Option FetchError :=
  let r := downloadAllLoop net folder p.pdf_links fs []
  (p, r.1, r.2.1, r.2.2)

/-- The example-usage script at the bottom of `parser.py`:
`parse_issues`, then `parse_pdfs`, then `download_all`; an exception at
any stage aborts the rest. -/
def runPipeline (net : Net Html) (netF : Net Chunks) (p : LinkParser)
    (cls1 ext1 cls2 ext2 folder : String) (fs : FS) :
    LinkParser × FS × List Event × Option FetchError :=
  match p.parse_issues net cls1 ext1 with
  | (p1, .error e) => (p1, fs, [], some e)
  | (p1, .ok _) =>
    match p1.parse_pdfs net cls2 ext2 with
    | (p2, some e) => (p2, fs, [], some e)
    | (p2, none) => p2.download_all netF folder fs

/-- The per-anchor selection `parse_pdfs` performs: the extracted
attribute value, when the attribute is present and the text contains
`"PDF FULL TEXT"`. -/
def pdfSelect (ext : String) (e : HtmlElement) : Option String :=
  match getAttr e ext with
  | some v => if strContainsSub e.text "PDF FULL TEXT" then some v else none
  | none => none

/-- The per-container selection `parse_issues` performs: the attribute
value of the first attribute-carrying descendant, if any. -/
def issueSelect (ext : String) (e : HtmlElement) : Option String :=
  (findAttrDescendant ext e).bind (fun t => getAttr t ext)

/-- Number of `time.sleep(1)` invocations in a trace. -/
def countSleeps (tr : List Event) : Nat :=
  (tr.filter isSleep).length

/-- Number of `self.download` invocations in a trace. -/
def countDownloads (tr : List Event) : Nat :=
  (tr.filter isDownload).length

/-- A network on which every file request succeeds. -/
def netSucceeds (net : Net Chunks) : Prop :=
  ∀ url, ∃ r, net url = some r ∧ ¬(400 ≤ r.status ∧ r.status < 600)

/-! Concrete fixtures used to witness and refute claims. -/

/-- An anchor with the PDF class but `EPUB FULL TEXT` text. -/
def epubAnchor : HtmlElement :=
  .mk "a" ["obj_galley_link", "pdf"] [("href", "epub-url")] "EPUB FULL TEXT" []

/-- An anchor with the PDF class, an `href`, and `PDF FULL TEXT` text. -/
def pdfAnchor : HtmlElement :=
  .mk "a" ["obj_galley_link", "pdf"] [("href", "pdf-url")] " PDF FULL TEXT " []

/-- An issue page holding one qualifying and one disqualified anchor. -/
def issuePageFixture : Html :=
  [.mk "div" [] [] "" [epubAnchor, pdfAnchor]]

/-- Issue container `A`: an attribute-free `span` first, then two anchors
carrying `href`; the first carrier wins. -/
def issueDivA : HtmlElement :=
  .mk "div" ["obj_issue_summary"] [] ""
    [.mk "span" [] [] "label" [],
     .mk "a" [] [("href", "urlA")] "Issue A" [],
     .mk "a" [] [("href", "urlA2")] "alternate" []]

/-- Issue container `B`: the carrier is a `span`, not an anchor. -/
def issueDivB : HtmlElement :=
  .mk "div" ["obj_issue_summary"] [] ""
    [.mk "span" [] [("href", "urlB")] "Issue B" []]

/-- Issue container `C`: the carrier anchor is nested two levels down. -/
def issueDivC : HtmlElement :=
  .mk "div" ["obj_issue_summary"] [] ""
    [.mk "div" [] [] "" [.mk "a" [] [("href", "urlC")] "Issue C" []]]

/-- An archive page with issue containers in order `A`, `B`, `C`. -/
def archivePageFixture : Html :=
  [.mk "div" ["page"] [] ""
    [issueDivA, issueDivB, issueDivC, .mk "div" ["other"] [] "" []]]

/-- A page whose only class-`x` `div` has no attribute-carrying
descendant and whose only class-`x` anchor lacks the attribute. -/
def bareDivPage : Html :=
  [.mk "div" ["x"] [] "" [.mk "span" [] [] "t" []],
   .mk "a" ["x"] [] "PDF FULL TEXT" []]

/-- An archive page with exactly two issue containers linking `i1`, `i2`. -/
def archiveTwoIssues : Html :=
  [.mk "div" ["obj_issue_summary"] [] "" [.mk "a" [] [("href", "i1")] "one" []],
   .mk "div" ["obj_issue_summary"] [] "" [.mk "a" [] [("href", "i2")] "two" []]]

/-- A network serving the archive, a good first issue page, and a 404 on
the second issue page. -/
def netFix : Net Html := fun u =>
  if u = "archive" then some ⟨200, archiveTwoIssues⟩
  else if u = "i1" then some ⟨200, issuePageFixture⟩
  else if u = "i2" then some ⟨404, []⟩
  else none

/-- A file network answering every URL with status 200 and two chunks. -/
def netFilesOk : Net Chunks := fun _ => some ⟨200, [[1, 2], [3]]⟩

/-- A file network answering every URL with a 404 and no body. -/
def netFiles404 : Net Chunks := fun _ => some ⟨404, []⟩

/-- The empty filesystem. -/
def fsEmpty : FS := fun _ => none

/-! Helper lemmas. -/

theorem replaceAux_id (pat rep : List Char) (s : List Char)
    (h : listContainsSub pat s = false) : replaceAux pat rep s 0 = s := by
  induction s with
  | nil => rfl
  | cons x xs ih =>
    simp only [listContainsSub, Bool.or_eq_false_iff] at h
    rw [replaceAux, if_neg, ih h.2]
    rintro ⟨hne, hpre⟩
    rw [h.1] at hpre
    exact Bool.noConfusion hpre

theorem splitOnChar_ne_nil (c : Char) (s : List Char) : splitOnChar c s ≠ [] := by
  induction s with
  | nil => simp [splitOnChar]
  | cons x xs ih =>
    rw [splitOnChar]
    by_cases hx : x = c
    · simp [hx]
    · simp only [if_neg hx]
      cases h : splitOnChar c xs with
      | nil => simp
      | cons p rest => simp

theorem splitOnChar_not_mem (c : Char) (s : List Char) :
    ∀ p ∈ splitOnChar c s, c ∉ p := by
  induction s with
  | nil => simp [splitOnChar]
  | cons x xs ih =>
    rw [splitOnChar]
    by_cases hx : x = c
    · simp only [if_pos hx, List.mem_cons]
      rintro p (rfl | hp)
      · simp
      · exact ih p hp
    · simp only [if_neg hx]
      cases h : splitOnChar c xs with
      | nil => exact absurd h (splitOnChar_ne_nil c xs)
      | cons q rest =>
        intro p hp
        rcases List.mem_cons.mp hp with rfl | hp2
        · intro hc
          rcases List.mem_cons.mp hc with rfl | hc2
          · exact hx rfl
          · exact ih q (h ▸ List.mem_cons_self q rest) hc2
        · exact ih p (h ▸ List.mem_cons_of_mem q hp2)

theorem getLastD_mem {α : Type} (d : α) (p : α) (rest : List α) :
    (p :: rest).getLastD d ∈ p :: rest := by
  induction rest generalizing p with
  | nil => simp [List.getLastD]
  | cons q qs ih =>
    have h1 : (p :: q :: qs).getLastD d = (q :: qs).getLastD d := by
      simp [List.getLastD]
    rw [h1]
    exact List.mem_cons_of_mem _ (ih q)

theorem lastSegment_not_mem (s : String) : '/' ∉ (lastSegment s).data := by
  show '/' ∉ (splitOnChar '/' s.data).getLastD []
  cases h : splitOnChar '/' s.data with
  | nil => exact absurd h (splitOnChar_ne_nil '/' s.data)
  | cons p rest =>
    exact splitOnChar_not_mem '/' s.data _ (h ▸ getLastD_mem [] p rest)

theorem pdfsLoop_eq (ext : String) (es : List HtmlElement) (acc : List String) :
    pdfsLoop ext es acc = acc ++ es.filterMap (pdfSelect ext) := by
  induction es generalizing acc with
  | nil => simp [pdfsLoop]
  | cons e rest ih =>
    simp only [pdfsLoop, List.filterMap_cons, pdfSelect]
    cases h : getAttr e ext with
    | none => simp [ih]
    | some v =>
      by_cases ht : strContainsSub e.text "PDF FULL TEXT"
      · simp [ht, ih]
      · simp [ht, ih]

theorem issuesLoop_eq (ext : String) (es : List HtmlElement) (acc : List String) :
    issuesLoop ext es acc = acc ++ es.filterMap (issueSelect ext) := by
  induction es generalizing acc with
  | nil => simp [issuesLoop]
  | cons e rest ih =>
    simp only [issuesLoop, List.filterMap_cons, issueSelect]
    cases h : findAttrDescendant ext e with
    | none => simp [ih]
    | some t =>
      cases h2 : getAttr t ext with
      | none => simp [h2, ih]
      | some v => simp [h2, ih]

theorem pdfSelect_eq_some (ext : String) (e : HtmlElement) (u : String) :
    pdfSelect ext e = some u ↔
      getAttr e ext = some u ∧ strContainsSub e.text "PDF FULL TEXT" = true := by
  rw [pdfSelect]
  cases h : getAttr e ext with
  | none => simp
  | some v =>
    by_cases ht : strContainsSub e.text "PDF FULL TEXT"
    · simp [ht]
    · simp [ht]

theorem pdfPagesLoop_error (net : Net Html) (cls ext bad : String)
    (after : List String) (e : FetchError) (hbad : fetch_page net bad = .error e) :
    ∀ (before : List String) (acc : List String),
      (∀ u ∈ before, ∃ pg, fetch_page net u = .ok pg) →
      pdfPagesLoop net cls ext (before ++ bad :: after) acc
        = ((pdfPagesLoop net cls ext before acc).1, some e) := by
  intro before
  induction before with
  | nil =>
    intro acc h
    simp [pdfPagesLoop, hbad]
  | cons u rest ih =>
    intro acc h
    obtain ⟨pg, hpg⟩ := h u (List.mem_cons_self u rest)
    simp only [List.cons_append, pdfPagesLoop, hpg]
    exact ih _ (fun v hv => h v (List.mem_cons_of_mem u hv))

theorem downloadAllLoop_counts (net : Net Chunks) (folder : String)
    (h : netSucceeds net) :
    ∀ (links : List String) (fs : FS) (tr : List Event),
      countSleeps (downloadAllLoop net folder links fs tr).2.1
          = countSleeps tr + links.length ∧
      countDownloads (downloadAllLoop net folder links fs tr).2.1
          = countDownloads tr + links.length := by
  intro links
  induction links with
  | nil =>
    intro fs tr
    simp [downloadAllLoop]
  | cons link rest ih =>
    intro fs tr
    obtain ⟨r, hr, hst⟩ := h (rewriteView link)
    have hok : raise_for_status r.status = .ok () := by
      rw [raise_for_status, if_neg hst]
    have hdl : download net (rewriteView link) (localPathOf folder (rewriteView link)) fs
        = (fs.write (localPathOf folder (rewriteView link)) r.body.flatten, none) := by
      simp only [download, hr, hok]
    rw [downloadAllLoop, hdl]
    rcases ih (fs.write (localPathOf folder (rewriteView link)) r.body.flatten)
      (tr ++ [.download (rewriteView link) (localPathOf folder (rewriteView link)), .sleep])
      with ⟨ihs, ihd⟩
    rw [ihs, ihd]
    constructor
    · simp only [countSleeps, List.filter_append, List.length_append]
      simp [isSleep]
      omega
    · simp only [countDownloads, List.filter_append, List.length_append]
      simp [isDownload]
      omega

theorem head_ne_of_not_mem {l : List Char} (h : '/' ∉ l) : l.head? ≠ some '/' := by
  cases l with
  | nil => simp
  | cons x xs =>
    simp only [List.head?_cons, ne_eq, Option.some.injEq]
    intro hx
    exact h (hx ▸ List.mem_cons_self x xs)

/-! Claim theorems. -/

/-- C1: `parse_pdfs` keeps an anchor element if and only if it is an `a`
element matching the class filter, carries the target attribute, and its
text contains the literal substring `"PDF FULL TEXT"`; on a fixture page
the anchor with the right class but `EPUB FULL TEXT` text is dropped and
the one with `PDF FULL TEXT` text is kept. -/
theorem C1_pdf_anchor_filter :
    (∀ (page : Html) (cls ext u : String),
      u ∈ parsePdfsPage page cls ext [] ↔
        ∃ e, e ∈ preorderList page ∧ e.tag = "a" ∧ matchesClass cls e = true ∧
          getAttr e ext = some u ∧ strContainsSub e.text "PDF FULL TEXT" = true) ∧
    parsePdfsPage issuePageFixture "pdf" "href" [] = ["pdf-url"] := by
  constructor
  · intro page cls ext u
    show u ∈ pdfsLoop ext (findAllPage page "a" cls) [] ↔ _
    rw [pdfsLoop_eq]
    simp only [List.nil_append, List.mem_filterMap, findAllPage, List.mem_filter,
      Bool.and_eq_true, beq_iff_eq, pdfSelect_eq_some]
    constructor
    · rintro ⟨e, ⟨hmem, htag, hcls⟩, hattr, ht⟩
      exact ⟨e, hmem, htag, hcls, hattr, ht⟩
    · rintro ⟨e, hmem, htag, hcls, hattr, ht⟩
      exact ⟨e, ⟨hmem, htag, hcls⟩, hattr, ht⟩
  · decide

/-- C2: if fetching one issue page fails during `parse_pdfs`, the error
propagates, the resulting `pdf_links` holds only links derived from the
issue pages before the failing one, and in the end-to-end pipeline no
download is invoked (the event trace is empty). -/
theorem C2_fetch_failure_aborts
    (net : Net Html) (cls ext : String) (p : LinkParser)
    (before : List String) (bad : String) (after : List String) (e : FetchError)
    (hlinks : p.issue_links = before ++ bad :: after)
    (hok : ∀ u ∈ before, ∃ pg, fetch_page net u = .ok pg)
    (hbad : fetch_page net bad = .error e) :
    (p.parse_pdfs net cls ext).2 = some e ∧
    (p.parse_pdfs net cls ext).1.pdf_links = (pdfPagesLoop net cls ext before []).1 ∧
    (∀ (netF : Net Chunks) (cls1 ext1 folder : String) (fs : FS) (q : LinkParser)
        (links : List String),
      q.parse_issues net cls1 ext1 = (p, .ok links) →
      (runPipeline net netF q cls1 ext1 cls ext folder fs).2.2.1 = [] ∧
      (runPipeline net netF q cls1 ext1 cls ext folder fs).2.2.2 = some e) := by
  have hloop := pdfPagesLoop_error net cls ext bad after e hbad before [] hok
  have h2 : (p.parse_pdfs net cls ext).2 = some e := by
    show (pdfPagesLoop net cls ext p.issue_links []).2 = some e
    rw [hlinks, hloop]
  have h1 : (p.parse_pdfs net cls ext).1.pdf_links
      = (pdfPagesLoop net cls ext before []).1 := by
    show (pdfPagesLoop net cls ext p.issue_links []).1 = _
    rw [hlinks, hloop]
  refine ⟨h2, h1, ?_⟩
  intro netF cls1 ext1 folder fs q links hq
  cases hpe : p.parse_pdfs net cls ext with
  | mk p2 err =>
    rw [hpe] at h2
    dsimp only at h2
    subst h2
    simp only [runPipeline, hq, hpe]
    exact ⟨trivial, trivial⟩

/-- Witness for C2: the spec's failure scenario, on a network whose
archive page lists two issues, the first issue page being good and the
second answering 404. -/
theorem C2_witness :
    ((⟨"archive", ["i1", "i2"], []⟩ : LinkParser).parse_pdfs netFix "pdf" "href").2
        = some (.httpStatus 404) ∧
    ((⟨"archive", ["i1", "i2"], []⟩ : LinkParser).parse_pdfs netFix "pdf" "href").1.pdf_links
        = (pdfPagesLoop netFix "pdf" "href" ["i1"] []).1 ∧
    (runPipeline netFix netFilesOk ⟨"archive", [], []⟩ "obj_issue_summary" "href"
        "pdf" "href" "downloads" fsEmpty).2.2.1 = [] ∧
    (runPipeline netFix netFilesOk ⟨"archive", [], []⟩ "obj_issue_summary" "href"
        "pdf" "href" "downloads" fsEmpty).2.2.2 = some (.httpStatus 404) := by
  have h := C2_fetch_failure_aborts netFix "pdf" "href" ⟨"archive", ["i1", "i2"], []⟩
    ["i1"] "i2" [] (.httpStatus 404) rfl
    (fun u hu => by
      rw [List.mem_singleton] at hu
      subst hu
      exact ⟨issuePageFixture, rfl⟩)
    rfl
  have h3 := h.2.2 netFilesOk "obj_issue_summary" "href" "downloads" fsEmpty
    ⟨"archive", [], []⟩ ["i1", "i2"] rfl
  exact ⟨h.1, h.2.1, h3.1, h3.2⟩

/-- C3: `download_all`'s URL rewrite substitutes `/view/` with
`/download/`; a URL with no `/view/` substring is returned unchanged, and
`.../view/123/456` becomes `.../download/123/456`. -/
theorem C3_url_rewrite :
    (∀ url : String, strContainsSub url "/view/" = false → rewriteView url = url) ∧
    rewriteView "https://site/a/view/123/456" = "https://site/a/download/123/456" := by
  constructor
  · intro url h
    show (⟨replaceAux "/view/".data "/download/".data url.data 0⟩ : String) = url
    rw [replaceAux_id "/view/".data "/download/".data url.data h]
  · decide

/-- Witness for C3: a URL with no `/view/` substring is left unchanged. -/
theorem C3_witness :
    strContainsSub "https://site/a/download/9/9" "/view/" = false ∧
    rewriteView "https://site/a/download/9/9" = "https://site/a/download/9/9" :=
  ⟨by decide, C3_url_rewrite.1 "https://site/a/download/9/9" (by decide)⟩

/-- C4: the local path is the last `/`-separated segment of the rewritten
URL with `.pdf` appended, joined under the destination directory; for
`https://site/x/download/3272/2875` the filename is `2875.pdf`, and for a
nonempty directory not ending in a slash the path is directory, slash,
then a slash-free filename — inside the directory. -/
theorem C4_local_path :
    (lastSegment "https://site/x/download/3272/2875" ++ ".pdf" = "2875.pdf" ∧
     localPathOf "downloads" "https://site/x/download/3272/2875"
        = "downloads/2875.pdf") ∧
    (∀ folder r : String, folder ≠ "" → folder.data.getLast? ≠ some '/' →
      localPathOf folder r = folder ++ "/" ++ (lastSegment r ++ ".pdf") ∧
      '/' ∉ (lastSegment r ++ ".pdf").data) := by
  constructor
  · exact ⟨by decide, by decide⟩
  · intro folder r h1 h2
    have hname : '/' ∉ (lastSegment r ++ ".pdf").data := by
      show '/' ∉ (lastSegment r).data ++ ".pdf".data
      rw [List.mem_append]
      rintro (ha | hb)
      · exact lastSegment_not_mem r ha
      · exact absurd hb (by decide)
    refine ⟨?_, hname⟩
    have hd : folder.data ≠ [] := by
      intro hdata
      apply h1
      have hfold : folder = ⟨folder.data⟩ := rfl
      rw [hdata] at hfold
      exact hfold
    show osPathJoin folder (lastSegment r ++ ".pdf") = _
    rw [osPathJoin, if_neg (head_ne_of_not_mem hname), if_neg hd, if_neg h2]

/-- Witness for C4: the default download directory and the example URL. -/
theorem C4_witness :
    ("./data/downloads" : String) ≠ "" ∧
    localPathOf "./data/downloads" "https://site/x/download/3272/2875"
      = "./data/downloads" ++ "/"
        ++ (lastSegment "https://site/x/download/3272/2875" ++ ".pdf") :=
  ⟨by decide,
    (C4_local_path.2 "./data/downloads" "https://site/x/download/3272/2875"
      (by decide) (by decide)).1⟩

/-- C5 (claim refuted): with one PDF link and every request succeeding,
`download_all` invokes `time.sleep(1)` once, not `1 - 1 = 0` times as the
claim states — the delay runs after every download, the last included. -/
theorem C5_counterexample :
    countSleeps
        ((LinkParser.download_all netFilesOk ⟨"u", [], ["https://s/view/1/2"]⟩
          "downloads" fsEmpty).2.2.1) = 1 ∧
    (1 : Nat) ≠ (["https://s/view/1/2"] : List String).length - 1 := by
  constructor
  · decide
  · decide

/-- C5 (amended): when every download succeeds, `download_all` over `n`
PDF links invokes the pacing delay exactly `n` times — once after each
download, including the last — and invokes `download` exactly `n`
times. -/
theorem C5_sleep_after_each (net : Net Chunks) (p : LinkParser) (folder : String)
    (fs : FS) (h : netSucceeds net) :
    countSleeps (p.download_all net folder fs).2.2.1 = p.pdf_links.length ∧
    countDownloads (p.download_all net folder fs).2.2.1 = p.pdf_links.length := by
  have hc := downloadAllLoop_counts net folder h p.pdf_links fs []
  simpa [LinkParser.download_all, countSleeps, countDownloads] using hc

/-- Witness for C5 (amended): two links, two sleeps. -/
theorem C5_witness :
    netSucceeds netFilesOk ∧
    countSleeps ((LinkParser.download_all netFilesOk ⟨"u", [], ["a", "b"]⟩
        "downloads" fsEmpty).2.2.1) = 2 := by
  have hn : netSucceeds netFilesOk := fun url => ⟨⟨200, [[1, 2], [3]]⟩, rfl, by decide⟩
  exact ⟨hn,
    (C5_sleep_after_each netFilesOk ⟨"u", [], ["a", "b"]⟩ "downloads" fsEmpty hn).1⟩

/-- C6: `parse_issues` selects the matching `div` containers in document
order and maps each to the attribute value of its first attribute-carrying
descendant (at most one link per container, so no more links than
containers); a fixture with issues in order `A`, `B`, `C` yields exactly
`[urlA, urlB, urlC]`. -/
theorem C6_issue_extraction :
    (∀ (page : Html) (cls ext : String),
      parseIssuesPage page cls ext
        = (findAllPage page "div" cls).filterMap (issueSelect ext)) ∧
    (∀ (page : Html) (cls ext : String),
      (parseIssuesPage page cls ext).length ≤ (findAllPage page "div" cls).length) ∧
    parseIssuesPage archivePageFixture "obj_issue_summary" "href"
      = ["urlA", "urlB", "urlC"] := by
  refine ⟨?_, ?_, by decide⟩
  · intro page cls ext
    show issuesLoop ext (findAllPage page "div" cls) [] = _
    rw [issuesLoop_eq]
    simp
  · intro page cls ext
    show (issuesLoop ext (findAllPage page "div" cls) []).length ≤ _
    rw [issuesLoop_eq]
    simpa using List.length_filterMap_le (issueSelect ext) (findAllPage page "div" cls)

/-- C7: with zero matching elements both discovery operations return the
empty sequence, and a matched element without the target attribute (for
issues: without an attribute-carrying descendant) is silently skipped;
both operations are total, so no error is raised. -/
theorem C7_empty_and_missing_attr :
    (∀ (page : Html) (cls ext : String), findAllPage page "div" cls = [] →
        parseIssuesPage page cls ext = []) ∧
    (∀ (page : Html) (cls ext : String), findAllPage page "a" cls = [] →
        parsePdfsPage page cls ext [] = []) ∧
    (∀ (page : Html) (cls ext : String),
        (∀ e ∈ findAllPage page "div" cls, findAttrDescendant ext e = none) →
        parseIssuesPage page cls ext = []) ∧
    (∀ (page : Html) (cls ext : String),
        (∀ e ∈ findAllPage page "a" cls, getAttr e ext = none) →
        parsePdfsPage page cls ext [] = []) := by
  refine ⟨?_, ?_, ?_, ?_⟩
  · intro page cls ext h
    show issuesLoop ext (findAllPage page "div" cls) [] = []
    rw [h]
    rfl
  · intro page cls ext h
    show pdfsLoop ext (findAllPage page "a" cls) [] = []
    rw [h]
    rfl
  · intro page cls ext h
    show issuesLoop ext (findAllPage page "div" cls) [] = []
    rw [issuesLoop_eq, List.nil_append, List.filterMap_eq_nil_iff]
    intro e he
    rw [issueSelect, h e he]
    rfl
  · intro page cls ext h
    show pdfsLoop ext (findAllPage page "a" cls) [] = []
    rw [pdfsLoop_eq, List.nil_append, List.filterMap_eq_nil_iff]
    intro e he
    rw [pdfSelect, h e he]

/-- Witness for C7: a class with no matches, and matched elements with no
attribute. -/
theorem C7_witness :
    parseIssuesPage archivePageFixture "nomatch" "href" = [] ∧
    parsePdfsPage archivePageFixture "nomatch" "href" [] = [] ∧
    parseIssuesPage bareDivPage "x" "href" = [] ∧
    parsePdfsPage bareDivPage "x" "href" [] = [] := by
  refine ⟨C7_empty_and_missing_attr.1 archivePageFixture "nomatch" "href" rfl,
          C7_empty_and_missing_attr.2.1 archivePageFixture "nomatch" "href" rfl,
          C7_empty_and_missing_attr.2.2.1 bareDivPage "x" "href" ?_,
          C7_empty_and_missing_attr.2.2.2 bareDivPage "x" "href" ?_⟩
  · intro e he
    have hfa : findAllPage bareDivPage "div" "x"
        = [HtmlElement.mk "div" ["x"] [] "" [.mk "span" [] [] "t" []]] := rfl
    rw [hfa, List.mem_singleton] at he
    subst he
    rfl
  · intro e he
    have hfa : findAllPage bareDivPage "a" "x"
        = [HtmlElement.mk "a" ["x"] [] "PDF FULL TEXT" []] := rfl
    rw [hfa, List.mem_singleton] at he
    subst he
    rfl

/-- C8: each discovery call fully replaces its link list: `parse_pdfs`
starts its accumulator from `[]` (prior `pdf_links` never contribute),
the result of either operation depends only on the current call's inputs,
and on a successful fetch `parse_issues` installs exactly the links
extracted from the fetched page. -/
theorem C8_reset_semantics :
    (∀ (net : Net Html) (p : LinkParser) (cls ext : String),
      (p.parse_pdfs net cls ext).1.pdf_links
        = (pdfPagesLoop net cls ext p.issue_links []).1) ∧
    (∀ (net : Net Html) (p q : LinkParser) (cls ext : String),
      p.issue_links = q.issue_links →
      (p.parse_pdfs net cls ext).1.pdf_links = (q.parse_pdfs net cls ext).1.pdf_links ∧
      (p.parse_pdfs net cls ext).2 = (q.parse_pdfs net cls ext).2) ∧
    (∀ (net : Net Html) (p q : LinkParser) (cls ext : String),
      p.issues_url = q.issues_url →
      (p.parse_issues net cls ext).2 = (q.parse_issues net cls ext).2) ∧
    (∀ (net : Net Html) (p : LinkParser) (cls ext : String) (page : Html),
      fetch_page net p.issues_url = .ok page →
      (p.parse_issues net cls ext).1.issue_links = parseIssuesPage page cls ext) := by
  refine ⟨?_, ?_, ?_, ?_⟩
  · intro net p cls ext
    rfl
  · intro net p q cls ext h
    constructor
    · show (pdfPagesLoop net cls ext p.issue_links []).1
          = (pdfPagesLoop net cls ext q.issue_links []).1
      rw [h]
    · show (pdfPagesLoop net cls ext p.issue_links []).2
          = (pdfPagesLoop net cls ext q.issue_links []).2
      rw [h]
  · intro net p q cls ext h
    rw [LinkParser.parse_issues, LinkParser.parse_issues, h]
    cases fetch_page net q.issues_url with
    | error e => rfl
    | ok page => rfl
  · intro net p cls ext page h
    rw [LinkParser.parse_issues, h]

/-- Witness for C8: states differing only in their previous link lists
produce identical results. -/
theorem C8_witness :
    ((⟨"archive", ["i1"], ["old"]⟩ : LinkParser).parse_pdfs netFix "pdf" "href").1.pdf_links
      = ((⟨"archive", ["i1"], []⟩ : LinkParser).parse_pdfs netFix "pdf" "href").1.pdf_links ∧
    ((⟨"archive", ["x"], ["y"]⟩ : LinkParser).parse_issues netFix "obj_issue_summary" "href").2
      = ((⟨"archive", [], []⟩ : LinkParser).parse_issues netFix "obj_issue_summary" "href").2 ∧
    ((⟨"archive", [], []⟩ : LinkParser).parse_issues netFix "obj_issue_summary" "href").1.issue_links
      = parseIssuesPage archiveTwoIssues "obj_issue_summary" "href" :=
  ⟨(C8_reset_semantics.2.1 netFix ⟨"archive", ["i1"], ["old"]⟩ ⟨"archive", ["i1"], []⟩
      "pdf" "href" rfl).1,
   C8_reset_semantics.2.2.1 netFix ⟨"archive", ["x"], ["y"]⟩ ⟨"archive", [], []⟩
      "obj_issue_summary" "href" rfl,
   C8_reset_semantics.2.2.2 netFix ⟨"archive", [], []⟩ "obj_issue_summary" "href"
      archiveTwoIssues rfl⟩

/-- C9: when the GET response for a download carries a 4xx/5xx status,
the error is raised before the local file is opened, so the filesystem —
in particular the file at the local path — is unchanged. -/
theorem C9_no_write_on_status_error
    (net : Net Chunks) (url path : String) (fs : FS) (r : Resp Chunks)
    (hr : net url = some r) (h4 : 400 ≤ r.status) (h6 : r.status < 600) :
    download net url path fs = (fs, some (.httpStatus r.status)) ∧
    (∀ q : String, (download net url path fs).1 q = fs q) := by
  have hst : raise_for_status r.status = .error (.httpStatus r.status) := by
    rw [raise_for_status, if_pos ⟨h4, h6⟩]
  have hd : download net url path fs = (fs, some (.httpStatus r.status)) := by
    simp only [download, hr, hst]
  exact ⟨hd, fun q => by rw [hd]⟩

/-- Witness for C9: a 404 on an empty filesystem writes nothing. -/
theorem C9_witness :
    netFiles404 "u" = some ⟨404, []⟩ ∧
    download netFiles404 "u" "downloads/2.pdf" fsEmpty
      = (fsEmpty, some (.httpStatus 404)) :=
  ⟨rfl,
    (C9_no_write_on_status_error netFiles404 "u" "downloads/2.pdf" fsEmpty ⟨404, []⟩
      rfl (by decide) (by decide)).1⟩

/-- C10: `download_all` leaves the parser's discovered-link state
unchanged: the returned parser equals the input parser, its `issue_links`
and `pdf_links` included (the rewrite is applied to the loop variable,
never written back). -/
theorem C10_download_all_frame (net : Net Chunks) (p : LinkParser)
    (folder : String) (fs : FS) :
    (p.download_all net folder fs).1 = p ∧
    (p.download_all net folder fs).1.issue_links = p.issue_links ∧
    (p.download_all net folder fs).1.pdf_links = p.pdf_links :=
  ⟨rfl, rfl, rfl⟩

end Vaidya
